import Mathlib

/-!
Verification of the PW-Framework test-resource lifecycle manager and fixture
composition layer, as a shallow embedding of the TypeScript sources.

* `CleanupManager` embeds `src/fixtures/test-hooks/cleanup.fixture.ts`.
* `ArticleApiService.deleteArticle` embeds
  `src/fixtures/api/services/article-api.service.ts`.
* `apiRequest` embeds `src/fixtures/api/plain-function.ts`.
* The fixture-merge and fixture-resolution engine live in the third-party
  test-runner library (not in the repository's own sources); those two pieces
  are modelled from the specification and clearly marked as such.
-/

namespace PW

/-- A `CleanupManager`'s mutable state: `private articleSlugs: string[] = []`
(`src/fixtures/test-hooks/cleanup.fixture.ts`). -/
structure CleanupManager where
  articleSlugs : List String
deriving Repr, DecidableEq

/-- The state of a freshly constructed `CleanupManager`. -/
def CleanupManager.mk0 : CleanupManager := { articleSlugs := [] }

/-- Embeds `registerArticle(slug)`: `if (!this.articleSlugs.includes(slug)) {
this.articleSlugs.push(slug); }`. -/
def registerArticle (m : CleanupManager) (slug : String) : CleanupManager :=
  if m.articleSlugs.contains slug then m
  else { m with articleSlugs := m.articleSlugs ++ [slug] }

/-- Embeds `unregisterArticle(slug)`:
`this.articleSlugs = this.articleSlugs.filter((s) => s !== slug);`. -/
def unregisterArticle (m : CleanupManager) (slug : String) : CleanupManager :=
  { m with articleSlugs := m.articleSlugs.filter (fun s => s ≠ slug) }

/-- A sequence of `registerArticle` calls applied in order. -/
def registerAll (m : CleanupManager) (slugs : List String) : CleanupManager :=
  slugs.foldl registerArticle m

/-- Behaviour of the delete collaborator (`this.articleService.deleteArticle`)
on one slug: an async call either resolves to a boolean or rejects
(raises) with an error message. -/
inductive DeleteOutcome where
  | ok (deleted : Bool)
  | raise (msg : String)
deriving Repr, DecidableEq

/-- One iteration of the loop body of `cleanup()`:
`try { await this.articleService.deleteArticle(slug); } catch { /* Ignore
errors - article may already be deleted */ }`.  The result of the awaited
call is returned as an `Except`: `.error` would propagate an exception out
of the iteration. -/
def cleanupStep (deleteArticle : String → DeleteOutcome) (slug : String) :
    Except String Unit :=
  match deleteArticle slug with
  | DeleteOutcome.ok _ => Except.ok ()
  | DeleteOutcome.raise _ => Except.ok ()

/-- The loop `for (const slug of this.articleSlugs.reverse()) { ... }` of
`cleanup()`, run over an explicit slug list.  On success it returns the
sequence of slugs passed to the delete collaborator, in call order; an
`.error` means an exception escaped the loop. -/
def cleanupLoop (deleteArticle : String → DeleteOutcome) :
    List String → Except String (List String)
  | [] => Except.ok []
  | slug :: rest =>
    match cleanupStep deleteArticle slug with
    | Except.ok _ =>
      match cleanupLoop deleteArticle rest with
      | Except.ok calls => Except.ok (slug :: calls)
      | Except.error e => Except.error e
    | Except.error e => Except.error e

/-- Embeds `async cleanup()`: iterate over `this.articleSlugs.reverse()`, attempting
`deleteArticle` on each slug inside try/catch, then `this.articleSlugs = []`.
On success it returns the final manager state together with the sequence of
slugs the delete collaborator was invoked with, in call order. -/
def cleanup (deleteArticle : String → DeleteOutcome) (m : CleanupManager) :
    Except String (CleanupManager × List String) :=
  match cleanupLoop deleteArticle m.articleSlugs.reverse with
  | Except.ok calls => Except.ok ({ articleSlugs := [] }, calls)
  | Except.error e => Except.error e

/-- The claimed shape of `pending` after a call sequence, written from the
spec's words: each distinct identifier exactly once, in the order of each
identifier's first registration. -/
def firstRegistrationOrder : List String → List String
  | [] => []
  | slug :: rest => slug :: firstRegistrationOrder (rest.filter (fun s => s ≠ slug))
termination_by l => l.length
decreasing_by
  simp only [List.length_cons]
  exact Nat.lt_succ_of_le (List.length_filter_le _ _)

/-- Constant `HTTP_STATUS.NO_CONTENT` from `src/test-data/index.ts`. -/
def HTTP_STATUS_NO_CONTENT : Nat := 204

/-- Endpoint builder `API_ENDPOINTS.articles.bySlug` from `src/test-data/index.ts`. -/
def articles_bySlug (slug : String) : String := "api/articles/" ++ slug

/-- An `APIResponse` from the HTTP collaborator, as the embedded functions
observe it: `status()`, the `content-type` header (already defaulted with
`|| ""`), and the results of `json()` and `text()`, each of which may
reject (`.error`). -/
structure APIResponse where
  status : Nat
  contentType : String
  jsonResult : Except String String
  textResult : Except String String

/-- State of `ArticleApiService`: its fields (`src/fixtures/api/services/article-api.service.ts`):
`baseUrl` and the optional `token`.  The `APIRequestContext` collaborator is
passed explicitly to the operations that use it. -/
structure ArticleApiService where
  baseUrl : String
  token : Option String

/-- The private `headers` getter: `Content-Type` always, `Authorization`
added when a token is set (a set token is a nonempty string in the tests;
TS truthiness of `this.token` makes the empty string behave like no token). -/
def ArticleApiService.headers (svc : ArticleApiService) : List (String × String) :=
  match svc.token with
  | some t =>
    if t = "" then [("Content-Type", "application/json")]
    else [("Content-Type", "application/json"), ("Authorization", "Token " ++ t)]
  | none => [("Content-Type", "application/json")]

/-- Embeds `async deleteArticle(slug)`: performs `request.delete` on the slug's URL
with the service headers and returns `response.status() === HTTP_STATUS.NO_CONTENT`.
The function body contains no `throw`; an `.error` result would model an
exception raised by the method body after the collaborator responded. -/
def ArticleApiService.deleteArticle (svc : ArticleApiService)
    (requestDelete : String → List (String × String) → APIResponse)
    (slug : String) : Except String Bool :=
  let response := requestDelete (svc.baseUrl ++ articles_bySlug slug) svc.headers
  Except.ok (response.status == HTTP_STATUS_NO_CONTENT)

/-- TS string truthiness for optional strings (`undefined`, `null` and `""`
are falsy): used for `if (headers)` and `baseUrl ? ... : ...` in
`src/fixtures/api/plain-function.ts`. -/
def optStringTruthy : Option String → Bool
  | none => false
  | some s => s ≠ ""

/-- Model of `String.prototype.includes`, used as `contentType.includes("...")`. -/
def stringIncludes (s pat : String) : Bool := (s.splitOn pat).length != 1

/-- ASCII model of `String.prototype.toUpperCase`, used as
`method.toUpperCase()` in `apiRequest`. -/
def toUpperCase (s : String) : String := String.mk (s.data.map Char.toUpper)

/-- Parameters `ApiRequestParams` from `src/fixtures/api/plain-function.ts`; `method`
has TS type `"POST" | "GET" | "PUT" | "DELETE"` — a string, constrained by
the type checker.  `body` is an opaque payload object or `null`/absent;
`headers` is the optional token string. -/
structure ApiRequestParams where
  method : String
  url : String
  baseUrl : Option String
  body : Option String
  headers : Option String

/-- The `options` record assembled by `apiRequest`. -/
structure RequestOptions where
  data : Option String
  headers : List (String × String)
deriving Repr, DecidableEq

/-- The `APIRequestContext` collaborator: one HTTP call per method name. -/
structure APIRequestContext where
  post : String → RequestOptions → APIResponse
  get : String → RequestOptions → APIResponse
  put : String → RequestOptions → APIResponse
  delete : String → RequestOptions → APIResponse

/-- The `body` field of the `{ status, body }` record `apiRequest` returns:
`null`, a parsed JSON value, or a text body. -/
inductive BodyData where
  | null
  | json (v : String)
  | text (v : String)
deriving Repr, DecidableEq

/-- Embeds `apiRequest` from `src/fixtures/api/plain-function.ts`, instrumented to
also return the sequence of HTTP calls performed, each recorded as
(method name, full URL).  `.error` models a raised exception: the `switch`
default branch throws `Unsupported HTTP method`.  The body-parsing tail
swallows `json()`/`text()` failures (the `try`/`catch` with `console.warn`),
leaving `bodyData` null. -/
def apiRequest (request : APIRequestContext) (p : ApiRequestParams) :
    Except String ((Nat × BodyData) × List (String × String)) :=
  let options : RequestOptions :=
    { data := p.body
      headers :=
        if optStringTruthy p.headers then
          [("Authorization", "Token " ++ p.headers.getD ""),
           ("Content-Type", "application/json")]
        else [("Content-Type", "application/json")] }
  let fullUrl :=
    if optStringTruthy p.baseUrl then p.baseUrl.getD "" ++ p.url else p.url
  let dispatched : Except String (APIResponse × List (String × String)) :=
    if toUpperCase p.method = "POST" then
      Except.ok (request.post fullUrl options, [("POST", fullUrl)])
    else if toUpperCase p.method = "GET" then
      Except.ok (request.get fullUrl options, [("GET", fullUrl)])
    else if toUpperCase p.method = "PUT" then
      Except.ok (request.put fullUrl options, [("PUT", fullUrl)])
    else if toUpperCase p.method = "DELETE" then
      Except.ok (request.delete fullUrl options, [("DELETE", fullUrl)])
    else Except.error ("Unsupported HTTP method: " ++ p.method)
  match dispatched with
  | Except.error e => Except.error e
  | Except.ok (response, calls) =>
    let bodyData : BodyData :=
      if stringIncludes response.contentType "application/json" then
        match response.jsonResult with
        | Except.ok v => BodyData.json v
        | Except.error _ => BodyData.null
      else if stringIncludes response.contentType "text/" then
        match response.textResult with
        | Except.ok v => BodyData.text v
        | Except.error _ => BodyData.null
      else BodyData.null
    Except.ok ((response.status, bodyData), calls)

/-- Modelled from the spec: the `mergeTests` composition used at
`export const test = mergeTests(pageObjectFixture, apiRequestFixture, cleanupFixture)`
lives in the third-party test-runner library, outside this repository's
sources.  Per the spec's merge algorithm, source sets are iterated in
caller-given order and each `(name, provider)` pair is inserted into the
merged mapping only if the name is not already present
(first-registration-wins; a collision means reuse, not an error). -/
def mergeProviders {α : Type} (merged src : List (String × α)) : List (String × α) :=
  src.foldl (fun acc p => if (acc.lookup p.1).isSome then acc else acc ++ [p]) merged

/-- Modelled from the spec: merging N provider sets, in caller-given order,
into one Composition. -/
def mergeAll {α : Type} (sets : List (List (String × α))) : List (String × α) :=
  sets.foldl mergeProviders []

/-- First-found lookup of a name across a list of provider sets. -/
def lookupAcross {α : Type} (k : String) : List (List (String × α)) → Option α
  | [] => none
  | s :: rest =>
    match s.lookup k with
    | some v => some v
    | none => lookupAcross k rest

/-- Two provider sets with no name in common. -/
def namesDisjoint {α : Type} (s t : List (String × α)) : Prop :=
  ∀ k : String, (s.lookup k).isSome → (t.lookup k).isSome → False

/-- Modelled from the spec: the fixture composer's per-invocation resolution
(the test-runner's fixture engine that drives `setup`/`teardown` is not part
of this repository's sources).  `deps` names each provider's dependencies;
for each requested capability not yet resolved, its dependencies are
recursively resolved first and then its setup runs, appending it to the
resolution order.  `fuel` bounds the recursion depth; a cyclic graph
exhausts it and resolution fails with `none`. -/
def resolveMany (deps : String → List String) :
    Nat → List String → List String → Option (List String)
  | _, resolved, [] => some resolved
  | 0, _, _ :: _ => none
  | fuel + 1, resolved, name :: rest =>
    if name ∈ resolved then resolveMany deps fuel resolved rest
    else
      match resolveMany deps fuel resolved (deps name) with
      | none => none
      | some r2 =>
        if name ∈ r2 then resolveMany deps fuel r2 rest
        else resolveMany deps fuel (r2 ++ [name]) rest

/-- Modelled from the spec: teardown runs for every resolved provider in
strict reverse order of resolution. -/
def teardownOrder (order : List String) : List String := order.reverse

/-- The name `a` occurs strictly before the name `b` in the list `r`. -/
def resolvedBefore (r : List String) (a b : String) : Prop :=
  ∃ l₁ l₂ l₃, r = l₁ ++ a :: (l₂ ++ b :: l₃)

/-- The fixture dependency graph declared by the repository's fixtures in
`src/fixtures/test-hooks/cleanup.fixture.ts`: `cleanup`, `articleApi` and
`userApi` each depend on the runner's `request` context, and `testArticle`
depends on `articleApi` and `cleanup`. -/
def fixtureDeps : String → List String
  | "cleanup" => ["request"]
  | "articleApi" => ["request"]
  | "userApi" => ["request"]
  | "testArticle" => ["articleApi", "cleanup"]
  | _ => []

theorem cleanupStep_ok (deleteArticle : String → DeleteOutcome) (slug : String) :
    cleanupStep deleteArticle slug = Except.ok () := by
  unfold cleanupStep
  cases deleteArticle slug <;> rfl

theorem cleanupLoop_ok (deleteArticle : String → DeleteOutcome) (slugs : List String) :
    cleanupLoop deleteArticle slugs = Except.ok slugs := by
  induction slugs with
  | nil => rfl
  | cons slug rest ih =>
    unfold cleanupLoop
    rw [cleanupStep_ok, ih]

theorem cleanup_eq (deleteArticle : String → DeleteOutcome) (m : CleanupManager) :
    cleanup deleteArticle m =
      Except.ok ({ articleSlugs := [] }, m.articleSlugs.reverse) := by
  unfold cleanup
  rw [cleanupLoop_ok]

theorem mem_firstRegistrationOrder (a : String) :
    ∀ l : List String, a ∈ firstRegistrationOrder l ↔ a ∈ l := by
  intro l
  induction l using firstRegistrationOrder.induct with
  | case1 => simp [firstRegistrationOrder]
  | case2 slug rest ih =>
    rw [firstRegistrationOrder]
    simp only [List.mem_cons, ih, List.mem_filter]
    by_cases h : a = slug
    · simp [h]
    · simp [h]

theorem nodup_firstRegistrationOrder :
    ∀ l : List String, (firstRegistrationOrder l).Nodup := by
  intro l
  induction l using firstRegistrationOrder.induct with
  | case1 => simp [firstRegistrationOrder]
  | case2 slug rest ih =>
    rw [firstRegistrationOrder]
    refine List.Nodup.cons ?_ ih
    intro hmem
    rw [mem_firstRegistrationOrder, List.mem_filter] at hmem
    simp at hmem

theorem registerAll_articleSlugs (slugs : List String) :
    ∀ m : CleanupManager,
      (registerAll m slugs).articleSlugs =
        m.articleSlugs ++
          firstRegistrationOrder
            (slugs.filter (fun s => !(m.articleSlugs.contains s))) := by
  induction slugs with
  | nil => intro m; simp [registerAll, firstRegistrationOrder]
  | cons slug rest ih =>
    intro m
    have hstep : registerAll m (slug :: rest) = registerAll (registerArticle m slug) rest := by
      simp [registerAll]
    by_cases hmem : slug ∈ m.articleSlugs
    · have hreg : registerArticle m slug = m := by
        simp [registerArticle, hmem]
      rw [hstep, hreg, ih m, List.filter_cons]
      simp [hmem]
    · have hreg : registerArticle m slug =
          { m with articleSlugs := m.articleSlugs ++ [slug] } := by
        simp [registerArticle, hmem]
      rw [hstep, hreg, ih]
      have hfc : List.filter (fun s => !(m.articleSlugs.contains s)) (slug :: rest)
          = slug :: List.filter (fun s => !(m.articleSlugs.contains s)) rest := by
        simp [List.filter_cons, hmem]
      rw [hfc, firstRegistrationOrder, List.append_assoc, List.singleton_append]
      have hfilters :
          List.filter (fun s => !(List.contains (m.articleSlugs ++ [slug]) s)) rest
            = List.filter (fun s => s ≠ slug)
                (List.filter (fun s => !(m.articleSlugs.contains s)) rest) := by
        rw [List.filter_filter]
        apply List.filter_congr
        intro a _
        by_cases ha : a ∈ m.articleSlugs
        · have hne : a ≠ slug := fun heq => hmem (heq ▸ ha)
          simp [List.contains, ha, hne]
        · by_cases hb : a = slug <;> simp [List.contains, ha, hb]
      rw [hfilters]

/-- Claim C1: for every tracker state and every behaviour of the delete
collaborator (including raising for any subset of the pending resources),
`cleanup` attempts a delete call for every pending resource (the call list is
the reversed pending list, which contains every pending slug), completes
without raising, and leaves `pending` empty afterwards. -/
theorem claim_C1 (deleteArticle : String → DeleteOutcome) (m : CleanupManager) :
    cleanup deleteArticle m =
      Except.ok ({ articleSlugs := [] }, m.articleSlugs.reverse) ∧
    ∀ slug, slug ∈ m.articleSlugs → slug ∈ m.articleSlugs.reverse :=
  ⟨cleanup_eq deleteArticle m, fun _ h => List.mem_reverse.mpr h⟩

/-- Witness for C1 at the spec's scenario: the collaborator raises for one of
two pending resources; `cleanup` still attempts both, returns without error,
and ends with `pending` empty. -/
theorem claim_C1_witness :
    cleanup (fun s => if s = "a1" then DeleteOutcome.raise "boom" else DeleteOutcome.ok true)
        { articleSlugs := ["a1", "a2"] } =
      Except.ok ({ articleSlugs := [] }, ["a2", "a1"]) ∧
    "a1" ∈ (({ articleSlugs := ["a1", "a2"] } : CleanupManager).articleSlugs).reverse :=
  ⟨(claim_C1 (fun s => if s = "a1" then DeleteOutcome.raise "boom" else DeleteOutcome.ok true)
      { articleSlugs := ["a1", "a2"] }).1,
   (claim_C1 (fun s => if s = "a1" then DeleteOutcome.raise "boom" else DeleteOutcome.ok true)
      { articleSlugs := ["a1", "a2"] }).2 "a1" (by decide)⟩

/-- Claim C2: for every sequence of register calls, `pending` contains each
distinct identifier exactly once, in the order of each identifier's first
registration, and re-registering an existing identifier leaves the manager
unchanged. -/
theorem claim_C2 (slugs : List String) :
    (registerAll CleanupManager.mk0 slugs).articleSlugs = firstRegistrationOrder slugs ∧
    (∀ a, a ∈ slugs → ((registerAll CleanupManager.mk0 slugs).articleSlugs).count a = 1) ∧
    (∀ (m : CleanupManager) (s : String), s ∈ m.articleSlugs → registerArticle m s = m) := by
  have hmain : (registerAll CleanupManager.mk0 slugs).articleSlugs
      = firstRegistrationOrder slugs := by
    rw [registerAll_articleSlugs]
    simp [CleanupManager.mk0]
  refine ⟨hmain, ?_, ?_⟩
  · intro a ha
    rw [hmain]
    exact List.count_eq_one_of_mem (nodup_firstRegistrationOrder slugs)
      ((mem_firstRegistrationOrder a slugs).mpr ha)
  · intro m s hs
    simp [registerArticle, hs]

/-- Witness for C2 at a sequence with a repeated identifier, and at a
re-registration of an already-present identifier. -/
theorem claim_C2_witness :
    ("a1" ∈ ["a1", "a2", "a1"] ∧
      ((registerAll CleanupManager.mk0 ["a1", "a2", "a1"]).articleSlugs).count "a1" = 1) ∧
    ("x" ∈ ({ articleSlugs := ["x"] } : CleanupManager).articleSlugs ∧
      registerArticle { articleSlugs := ["x"] } "x" = { articleSlugs := ["x"] }) :=
  ⟨⟨by decide, (claim_C2 ["a1", "a2", "a1"]).2.1 "a1" (by decide)⟩,
   ⟨by decide, (claim_C2 []).2.2 { articleSlugs := ["x"] } "x" (by decide)⟩⟩

/-- Claim C3: `cleanup` processes the pending resources in reverse
registration order: in general the delete-call sequence is the reverse of the
registration sequence, and after registering "a1" then "a2" the collaborator
is invoked with "a2" before "a1". -/
theorem claim_C3 (deleteArticle : String → DeleteOutcome) (m : CleanupManager) :
    (∃ r, cleanup deleteArticle m = Except.ok r ∧ r.2 = m.articleSlugs.reverse) ∧
    cleanup deleteArticle
        (registerArticle (registerArticle CleanupManager.mk0 "a1") "a2") =
      Except.ok ({ articleSlugs := [] }, ["a2", "a1"]) := by
  refine ⟨⟨_, cleanup_eq deleteArticle m, rfl⟩, ?_⟩
  rw [cleanup_eq]
  rfl

/-- Claim C5: after registering "a1" and then unregistering it, `cleanup`
never invokes the collaborator's delete; `unregisterArticle` removes exactly
the given identifier from the pending set and is a no-op (raising no error)
when the identifier is absent. -/
theorem claim_C5 (deleteArticle : String → DeleteOutcome) :
    cleanup deleteArticle (unregisterArticle (registerArticle CleanupManager.mk0 "a1") "a1") =
      Except.ok ({ articleSlugs := [] }, []) ∧
    (∀ (m : CleanupManager) (s s' : String),
        s' ∈ (unregisterArticle m s).articleSlugs ↔ s' ∈ m.articleSlugs ∧ s' ≠ s) ∧
    (∀ (m : CleanupManager) (s : String), s ∉ m.articleSlugs → unregisterArticle m s = m) := by
  refine ⟨?_, ?_, ?_⟩
  · rw [cleanup_eq]
    rfl
  · intro m s s'
    simp [unregisterArticle, List.mem_filter]
  · intro m s hs
    have hf : m.articleSlugs.filter (fun x => x ≠ s) = m.articleSlugs := by
      rw [List.filter_eq_self]
      intro a ha
      show decide (a ≠ s) = true
      rw [decide_eq_true_eq]
      exact fun heq => hs (heq ▸ ha)
    simp only [unregisterArticle, hf]

/-- Witness for C5: unregistering an absent identifier is a no-op, and
membership after unregistering behaves as stated, at concrete inputs. -/
theorem claim_C5_witness :
    ("a1" ∉ ({ articleSlugs := ["x"] } : CleanupManager).articleSlugs ∧
      unregisterArticle { articleSlugs := ["x"] } "a1" = { articleSlugs := ["x"] }) ∧
    ("x" ∈ (unregisterArticle { articleSlugs := ["x"] } "y").articleSlugs ↔
      "x" ∈ ({ articleSlugs := ["x"] } : CleanupManager).articleSlugs ∧ "x" ≠ "y") :=
  ⟨⟨by decide, (claim_C5 (fun _ => DeleteOutcome.ok true)).2.2
      { articleSlugs := ["x"] } "a1" (by decide)⟩,
   (claim_C5 (fun _ => DeleteOutcome.ok true)).2.1 { articleSlugs := ["x"] } "y" "x"⟩

/-- Claim C8: `cleanup` on an empty tracker completes without error and
performs no delete calls, and the tracker left behind by any completed
`cleanup` — whose pending list is empty — behaves the same on a second
`cleanup`, under any collaborator behaviour. -/
theorem claim_C8 (d d' : String → DeleteOutcome) (m : CleanupManager) :
    (m.articleSlugs = [] → cleanup d m = Except.ok ({ articleSlugs := [] }, [])) ∧
    (∀ m' calls, cleanup d m = Except.ok (m', calls) →
        cleanup d' m' = Except.ok ({ articleSlugs := [] }, [])) := by
  constructor
  · intro h
    rw [cleanup_eq, h]
    rfl
  · intro m' calls h
    rw [cleanup_eq] at h
    simp only [Except.ok.injEq, Prod.mk.injEq] at h
    obtain ⟨hm, -⟩ := h
    rw [← hm, cleanup_eq]
    rfl

/-- Witness for C8: a fresh tracker flushes with no calls, and so does the
state left by a completed flush of a nonempty tracker. -/
theorem claim_C8_witness :
    cleanup (fun _ => DeleteOutcome.raise "e") CleanupManager.mk0 =
        Except.ok ({ articleSlugs := [] }, []) ∧
    cleanup (fun _ => DeleteOutcome.ok false) { articleSlugs := [] } =
        Except.ok ({ articleSlugs := [] }, []) :=
  ⟨(claim_C8 (fun _ => DeleteOutcome.raise "e") (fun _ => DeleteOutcome.raise "e")
      CleanupManager.mk0).1 rfl,
   (claim_C8 (fun _ => DeleteOutcome.raise "e") (fun _ => DeleteOutcome.ok false)
      { articleSlugs := ["a1"] }).2 { articleSlugs := [] } ["a1"]
      (cleanup_eq (fun _ => DeleteOutcome.raise "e") { articleSlugs := ["a1"] })⟩

/-- Claim C9: `ArticleApiService.deleteArticle` never raises on an HTTP
error status: for every response from the collaborator it returns a boolean,
true exactly when the status code is 204 (`NO_CONTENT`). -/
theorem claim_C9 (svc : ArticleApiService)
    (requestDelete : String → List (String × String) → APIResponse) (slug : String) :
    ∃ b : Bool,
      ArticleApiService.deleteArticle svc requestDelete slug = Except.ok b ∧
      (b = true ↔
        (requestDelete (svc.baseUrl ++ articles_bySlug slug) svc.headers).status
          = HTTP_STATUS_NO_CONTENT) := by
  refine ⟨_, rfl, ?_⟩
  simp [beq_iff_eq]

/-- Claim C10: for every well-typed call to `apiRequest` (the method is one
of the four literals of its TS type), the `Unsupported HTTP method` default
branch is unreachable: the call returns a `(status, body)` record without
raising, and performs exactly one HTTP call, via the method named by the
parameters. -/
theorem claim_C10 (request : APIRequestContext) (p : ApiRequestParams)
    (h : p.method = "POST" ∨ p.method = "GET" ∨ p.method = "PUT" ∨ p.method = "DELETE") :
    ∃ status bodyData fullUrl,
      apiRequest request p = Except.ok ((status, bodyData), [(p.method, fullUrl)]) := by
  have hPOST : toUpperCase "POST" = "POST" := by decide
  have hGET : toUpperCase "GET" = "GET" := by decide
  have hPUT : toUpperCase "PUT" = "PUT" := by decide
  have hDELETE : toUpperCase "DELETE" = "DELETE" := by decide
  rcases h with h | h | h | h <;>
    (unfold apiRequest
     rw [h]
     simp only [hPOST, hGET, hPUT, hDELETE]
     exact ⟨_, _, _, rfl⟩)

/-- Witness for C10 at a concrete collaborator and a concrete GET call. -/
theorem claim_C10_witness :
    ({ method := "GET", url := "api/tags", baseUrl := some "http://x/",
       body := none, headers := none } : ApiRequestParams).method = "GET" ∧
    ∃ status bodyData fullUrl,
      apiRequest
        { post := fun _ _ => { status := 201, contentType := "", jsonResult := Except.error "none",
                               textResult := Except.error "none" }
          get := fun _ _ => { status := 200, contentType := "application/json",
                              jsonResult := Except.ok "tags", textResult := Except.error "none" }
          put := fun _ _ => { status := 200, contentType := "", jsonResult := Except.error "none",
                              textResult := Except.error "none" }
          delete := fun _ _ => { status := 204, contentType := "", jsonResult := Except.error "none",
                                 textResult := Except.error "none" } }
        { method := "GET", url := "api/tags", baseUrl := some "http://x/",
          body := none, headers := none } =
      Except.ok ((status, bodyData), [("GET", fullUrl)]) :=
  ⟨rfl,
   claim_C10
     { post := fun _ _ => { status := 201, contentType := "", jsonResult := Except.error "none",
                            textResult := Except.error "none" }
       get := fun _ _ => { status := 200, contentType := "application/json",
                           jsonResult := Except.ok "tags", textResult := Except.error "none" }
       put := fun _ _ => { status := 200, contentType := "", jsonResult := Except.error "none",
                           textResult := Except.error "none" }
       delete := fun _ _ => { status := 204, contentType := "", jsonResult := Except.error "none",
                              textResult := Except.error "none" } }
     { method := "GET", url := "api/tags", baseUrl := some "http://x/",
       body := none, headers := none }
     (Or.inr (Or.inl rfl))⟩

theorem lookup_append {α : Type} (l₁ l₂ : List (String × α)) (k : String) :
    (l₁ ++ l₂).lookup k = (l₁.lookup k).or (l₂.lookup k) := by
  induction l₁ with
  | nil => simp [List.lookup]
  | cons p rest ih =>
    cases p with
    | mk a b =>
      cases hb : (k == a) with
      | true => simp [List.lookup, hb]
      | false => simp [List.lookup, hb, ih]

theorem mergeProviders_lookup {α : Type} (src : List (String × α)) :
    ∀ (merged : List (String × α)) (k : String),
      (mergeProviders merged src).lookup k = (merged.lookup k).or (src.lookup k) := by
  induction src with
  | nil => intro merged k; simp [mergeProviders, List.lookup, Option.or_none]
  | cons p rest ih =>
    intro merged k
    cases p with
    | mk a b =>
      have hstep : mergeProviders merged ((a, b) :: rest)
          = mergeProviders (if (merged.lookup a).isSome then merged else merged ++ [(a, b)])
              rest := by
        simp [mergeProviders]
      rw [hstep]
      by_cases hm : (merged.lookup a).isSome
      · rw [if_pos hm, ih]
        obtain ⟨v, hv⟩ := Option.isSome_iff_exists.mp hm
        cases hb : (k == a) with
        | true =>
          have hk : k = a := beq_iff_eq.mp hb
          rw [hk, hv]
          simp [List.lookup]
        | false => simp [List.lookup, hb]
      · rw [if_neg hm, ih, lookup_append]
        cases hb : (k == a) with
        | true =>
          have hk : k = a := beq_iff_eq.mp hb
          subst hk
          have hnone : merged.lookup k = none := Option.not_isSome_iff_eq_none.mp hm
          simp [List.lookup, hnone]
        | false => simp [List.lookup, hb, Option.or_assoc]

theorem mergeAll_lookup {α : Type} (sets : List (List (String × α))) (k : String) :
    (mergeAll sets).lookup k = lookupAcross k sets := by
  suffices h : ∀ m : List (String × α),
      ((sets.foldl mergeProviders m).lookup k) = (m.lookup k).or (lookupAcross k sets) by
    have := h []
    simpa [mergeAll, List.lookup] using this
  induction sets with
  | nil => intro m; simp [lookupAcross, Option.or_none]
  | cons s rest ih =>
    intro m
    simp only [List.foldl_cons]
    rw [ih, mergeProviders_lookup]
    cases hs : s.lookup k with
    | some v => simp [lookupAcross, hs, Option.or_assoc]
    | none => simp [lookupAcross, hs, Option.or_assoc]

theorem lookupAcross_perm {α : Type} (k : String) :
    ∀ {sets₁ sets₂ : List (List (String × α))}, sets₁.Perm sets₂ →
      sets₁.Pairwise namesDisjoint →
      lookupAcross k sets₁ = lookupAcross k sets₂ := by
  intro sets₁ sets₂ hperm
  induction hperm with
  | nil => intro _; rfl
  | cons x _hp ih =>
    intro hpw
    simp only [lookupAcross]
    cases x.lookup k with
    | some v => rfl
    | none => exact ih (List.Pairwise.sublist (List.sublist_cons_self x _) hpw)
  | swap x y l =>
    intro hpw
    have hxy : namesDisjoint y x := (List.pairwise_cons.mp hpw).1 x (List.mem_cons_self x l)
    simp only [lookupAcross]
    cases hx : x.lookup k with
    | some v =>
      cases hy : y.lookup k with
      | some w =>
        exact (hxy k (by rw [hy]; rfl) (by rw [hx]; rfl)).elim
      | none => rfl
    | none => rfl
  | trans p₁ _p₂ ih₁ ih₂ =>
    intro hpw
    have hpw₂ := (List.Perm.pairwise_iff (fun h k h1 h2 => h k h2 h1) p₁).mp hpw
    exact (ih₁ hpw).trans (ih₂ hpw₂)

/-- Claim C4: merging provider sets is first-registration-wins: when an
earlier set defines a name, the merged composition resolves that name to the
earlier set's provider even when a later set also defines it, and the
collision is not an error; in particular two sets that both define `"x"`
with distinct markers resolve `"x"` to the first set's marker. -/
theorem claim_C4 {α : Type} (s₁ s₂ : List (String × α)) (name : String) (v : α)
    (h : s₁.lookup name = some v) :
    (mergeAll [s₁, s₂]).lookup name = some v ∧
    (mergeAll [[("x", (1 : Nat))], [("x", 2)]]).lookup "x" = some 1 := by
  constructor
  · rw [mergeAll_lookup]
    simp [lookupAcross, h]
  · rfl

/-- Witness for C4 with distinguishing marker values 1 and 2 for `"x"`. -/
theorem claim_C4_witness :
    ([(("x" : String), (1 : Nat))].lookup "x" = some 1) ∧
    (mergeAll [[("x", (1 : Nat))], [("x", 2)]]).lookup "x" = some 1 :=
  ⟨rfl, (claim_C4 [("x", 1)] [("x", 2)] "x" 1 rfl).1⟩

/-- Claim C7: the merge is associative (as a mapping), and when provider
names are pairwise disjoint across the input sets, every permutation of the
input order yields the same merged mapping. -/
theorem claim_C7 {α : Type} :
    (∀ (a b c : List (String × α)) (k : String),
        (mergeProviders (mergeProviders a b) c).lookup k
          = (mergeProviders a (mergeProviders b c)).lookup k) ∧
    (∀ (sets₁ sets₂ : List (List (String × α))),
        sets₁.Perm sets₂ → sets₁.Pairwise namesDisjoint →
        ∀ k, (mergeAll sets₁).lookup k = (mergeAll sets₂).lookup k) := by
  constructor
  · intro a b c k
    rw [mergeProviders_lookup, mergeProviders_lookup, mergeProviders_lookup,
      mergeProviders_lookup, Option.or_assoc]
  · intro sets₁ sets₂ hperm hpw k
    rw [mergeAll_lookup, mergeAll_lookup]
    exact lookupAcross_perm k hperm hpw

/-- Witness for C7: two disjoint singleton provider sets merged in both
orders resolve each name identically. -/
theorem claim_C7_witness :
    ([[(("a" : String), (1 : Nat))], [("b", 2)]].Perm [[("b", 2)], [("a", 1)]] ∧
      List.Pairwise namesDisjoint [[(("a" : String), (1 : Nat))], [("b", 2)]]) ∧
    (mergeAll [[(("a" : String), (1 : Nat))], [("b", 2)]]).lookup "a"
      = (mergeAll [[("b", 2)], [("a", 1)]]).lookup "a" := by
  have hperm : [[(("a" : String), (1 : Nat))], [("b", 2)]].Perm [[("b", 2)], [("a", 1)]] :=
    List.Perm.swap [("b", 2)] [("a", 1)] []
  have hpw : List.Pairwise namesDisjoint [[(("a" : String), (1 : Nat))], [("b", 2)]] := by
    refine List.pairwise_cons.mpr ⟨?_, List.pairwise_singleton _ _⟩
    intro t ht k h1 h2
    rw [List.mem_singleton] at ht
    subst ht
    cases hk : (k == "a") with
    | true =>
      rw [show k = "a" from beq_iff_eq.mp hk] at h2
      simp [List.lookup] at h2
    | false =>
      rw [List.lookup] at h1
      rw [hk] at h1
      simp [List.lookup] at h1
  exact ⟨⟨hperm, hpw⟩, (claim_C7 (α := Nat)).2 _ _ hperm hpw "a"⟩

theorem resolvedBefore_append (r t : List String) (a b : String)
    (h : resolvedBefore r a b) : resolvedBefore (r ++ t) a b := by
  obtain ⟨l₁, l₂, l₃, rfl⟩ := h
  exact ⟨l₁, l₂, l₃ ++ t, by simp⟩

theorem resolvedBefore_snoc (r : List String) (a b : String) (h : a ∈ r) :
    resolvedBefore (r ++ [b]) a b := by
  obtain ⟨s, t, rfl⟩ := List.append_of_mem h
  exact ⟨s, t, [], by simp⟩

theorem resolvedBefore_reverse (r : List String) (a b : String)
    (h : resolvedBefore r a b) : resolvedBefore r.reverse b a := by
  obtain ⟨l₁, l₂, l₃, rfl⟩ := h
  refine ⟨l₃.reverse, l₂.reverse, l₁.reverse, ?_⟩
  simp

theorem resolveMany_extends (deps : String → List String) :
    ∀ (fuel : Nat) (resolved todo r : List String),
      resolveMany deps fuel resolved todo = some r →
      ∃ t, r = resolved ++ t := by
  intro fuel
  induction fuel with
  | zero =>
    intro resolved todo r h
    cases todo with
    | nil =>
      simp only [resolveMany, Option.some.injEq] at h
      exact ⟨[], by simp [← h]⟩
    | cons name rest => simp [resolveMany] at h
  | succ fuel ih =>
    intro resolved todo r h
    cases todo with
    | nil =>
      simp only [resolveMany, Option.some.injEq] at h
      exact ⟨[], by simp [← h]⟩
    | cons name rest =>
      simp only [resolveMany] at h
      split at h
      · exact ih resolved rest r h
      · split at h
        · exact Option.noConfusion h
        · rename_i r2 hd
          obtain ⟨t1, ht1⟩ := ih resolved (deps name) r2 hd
          split at h
          · obtain ⟨t2, ht2⟩ := ih r2 rest r h
            exact ⟨t1 ++ t2, by rw [ht2, ht1, List.append_assoc]⟩
          · obtain ⟨t2, ht2⟩ := ih (r2 ++ [name]) rest r h
            refine ⟨t1 ++ [name] ++ t2, ?_⟩
            rw [ht2, ht1]
            simp [List.append_assoc]

theorem resolveMany_mem (deps : String → List String) :
    ∀ (fuel : Nat) (resolved todo r : List String),
      resolveMany deps fuel resolved todo = some r →
      (∀ x ∈ resolved, x ∈ r) ∧ (∀ n ∈ todo, n ∈ r) := by
  intro fuel
  induction fuel with
  | zero =>
    intro resolved todo r h
    cases todo with
    | nil =>
      simp only [resolveMany, Option.some.injEq] at h
      subst h
      exact ⟨fun x hx => hx, fun n hn => absurd hn (List.not_mem_nil n)⟩
    | cons name rest => simp [resolveMany] at h
  | succ fuel ih =>
    intro resolved todo r h
    cases todo with
    | nil =>
      simp only [resolveMany, Option.some.injEq] at h
      subst h
      exact ⟨fun x hx => hx, fun n hn => absurd hn (List.not_mem_nil n)⟩
    | cons name rest =>
      simp only [resolveMany] at h
      split at h
      · rename_i hn
        obtain ⟨hres, hrest⟩ := ih resolved rest r h
        refine ⟨hres, fun n hn' => ?_⟩
        rcases List.mem_cons.mp hn' with h' | h'
        · exact h' ▸ hres name hn
        · exact hrest n h'
      · split at h
        · exact Option.noConfusion h
        · rename_i r2 hd
          obtain ⟨t1, ht1⟩ := resolveMany_extends deps fuel resolved (deps name) r2 hd
          split at h
          · rename_i hn2
            obtain ⟨hres2, hrest⟩ := ih r2 rest r h
            constructor
            · intro x hx
              apply hres2
              rw [ht1]
              exact List.mem_append_left t1 hx
            · intro n hn'
              rcases List.mem_cons.mp hn' with h' | h'
              · exact h' ▸ hres2 name hn2
              · exact hrest n h'
          · rename_i hn2
            obtain ⟨hres2, hrest⟩ := ih (r2 ++ [name]) rest r h
            constructor
            · intro x hx
              apply hres2
              apply List.mem_append_left
              rw [ht1]
              exact List.mem_append_left t1 hx
            · intro n hn'
              rcases List.mem_cons.mp hn' with h' | h'
              · subst h'
                exact hres2 n (List.mem_append_right r2 (List.mem_singleton_self n))
              · exact hrest n h'

theorem resolveMany_inv (deps : String → List String) :
    ∀ (fuel : Nat) (resolved todo r : List String),
      resolveMany deps fuel resolved todo = some r →
      ∀ x, x ∈ r → x ∉ resolved → ∀ d, d ∈ deps x → resolvedBefore r d x := by
  intro fuel
  induction fuel with
  | zero =>
    intro resolved todo r h x hx hxres d hd
    cases todo with
    | nil =>
      simp only [resolveMany, Option.some.injEq] at h
      exact absurd (h ▸ hx) hxres
    | cons name rest => simp [resolveMany] at h
  | succ fuel ih =>
    intro resolved todo r h
    cases todo with
    | nil =>
      simp only [resolveMany, Option.some.injEq] at h
      intro x hx hxres d hd
      exact absurd (h ▸ hx) hxres
    | cons name rest =>
      simp only [resolveMany] at h
      split at h
      · exact ih resolved rest r h
      · split at h
        · exact Option.noConfusion h
        · rename_i r2 hd
          split at h
          · intro x hx hxres d hdep
            obtain ⟨t2, ht2⟩ := resolveMany_extends deps fuel r2 rest r h
            by_cases hx2 : x ∈ r2
            · have hb := resolvedBefore_append r2 t2 d x
                (ih resolved (deps name) r2 hd x hx2 hxres d hdep)
              rwa [← ht2] at hb
            · exact ih r2 rest r h x hx hx2 d hdep
          · rename_i hn2
            intro x hx hxres d hdep
            obtain ⟨t2, ht2⟩ := resolveMany_extends deps fuel (r2 ++ [name]) rest r h
            by_cases hx2 : x ∈ r2 ++ [name]
            · by_cases hxname : x = name
              · subst hxname
                have hdmem : d ∈ r2 :=
                  (resolveMany_mem deps fuel resolved (deps x) r2 hd).2 d hdep
                have hb := resolvedBefore_append (r2 ++ [x]) t2 d x
                  (resolvedBefore_snoc r2 d x hdmem)
                rwa [← ht2] at hb
              · have hxr2 : x ∈ r2 := by
                  rcases List.mem_append.mp hx2 with h' | h'
                  · exact h'
                  · exact absurd (List.mem_singleton.mp h') hxname
                have hb := resolvedBefore_append r2 ([name] ++ t2) d x
                  (ih resolved (deps name) r2 hd x hxr2 hxres d hdep)
                have hr : r = r2 ++ ([name] ++ t2) := by
                  rw [ht2, List.append_assoc]
                rwa [← hr] at hb
            · exact ih (r2 ++ [name]) rest r h x hx hx2 d hdep

/-- Claim C6: within one test invocation, a resolved provider's dependencies
are set up before it — if B was resolved and A is among B's dependencies,
then A precedes B in the resolution order — and teardown runs in the exact
reverse of the resolution order, so B's teardown precedes A's; in particular
the cleanup provider's flush (its teardown) runs after the teardown of every
provider that depends on it. -/
theorem claim_C6 (deps : String → List String) (fuel : Nat)
    (request order : List String) (A B : String)
    (h : resolveMany deps fuel [] request = some order)
    (hdep : A ∈ deps B) (hB : B ∈ order) :
    resolvedBefore order A B ∧ resolvedBefore (teardownOrder order) B A := by
  have hb := resolveMany_inv deps fuel [] request order h B hB (List.not_mem_nil B) A hdep
  exact ⟨hb, resolvedBefore_reverse order A B hb⟩

/-- Witness for C6 on the repository's fixture graph: resolving
`testArticle` sets up `request`, `articleApi`, `cleanup`, `testArticle` in
that order; `cleanup` is set up before its dependent `testArticle` and torn
down (flushed) after it. -/
theorem claim_C6_witness :
    resolveMany fixtureDeps 4 [] ["testArticle"]
        = some ["request", "articleApi", "cleanup", "testArticle"] ∧
    "cleanup" ∈ fixtureDeps "testArticle" ∧
    resolvedBefore ["request", "articleApi", "cleanup", "testArticle"]
      "cleanup" "testArticle" ∧
    resolvedBefore (teardownOrder ["request", "articleApi", "cleanup", "testArticle"])
      "testArticle" "cleanup" := by
  have hres : resolveMany fixtureDeps 4 [] ["testArticle"]
      = some ["request", "articleApi", "cleanup", "testArticle"] := by rfl
  have h := claim_C6 fixtureDeps 4 ["testArticle"]
    ["request", "articleApi", "cleanup", "testArticle"] "cleanup" "testArticle"
    hres (by decide) (by decide)
  exact ⟨hres, by decide, h.1, h.2⟩

end PW
